import Mathlib

/-!
Verification development for the `neurax` forward solver
(`src/neurax/vectorfield.py` and `src/neurax/integrate.py`).

Numeric arrays are embedded as `List α` over a linear ordered field `α`;
the float constant `math.pi` is threaded explicitly as a parameter `piv`
(instantiated with `Real.pi` where a claim speaks about `π`).  The gating
kinetics (`neurax.mechanisms`) and the branched tridiagonal solver
(`neurax.implicit_euler`) are not part of the given sources; the driver is
parameterised over a bundle of such component functions.
-/

set_option autoImplicit false
set_option linter.unusedVariables false
set_option linter.unusedSectionVars false

namespace Neurax

variable {α : Type} [LinearOrderedField α]

/-- Elementwise addition of two vectors (jax `+` on 1-D arrays),
truncating to the shorter length. -/
def ladd (xs ys : List α) : List α := List.zipWith (· + ·) xs ys

/-- Elementwise product of two vectors (jax `*` on 1-D arrays). -/
def lmul (xs ys : List α) : List α := List.zipWith (· * ·) xs ys

/-- Scalar times vector (jax scalar broadcast `c * xs`). -/
def smul (c : α) (xs : List α) : List α := xs.map (fun x => c * x)

/-- Elementwise power (jax `xs ** n`). -/
def lpow (xs : List α) (n : ℕ) : List α := xs.map (fun x => x ^ n)

/-- Strided slice `xs[o::s]` of a 1-D array: the elements at indices
`o, o + s, o + 2*s, …`; the element count is `⌈(len − o) / s⌉`. -/
def strideSlice (xs : List α) (o s : ℕ) : List α :=
  (List.range ((xs.length - o + s - 1) / s)).map (fun i => xs.getD (o + s * i) (0 : α))

/-- Row-major flattening of `jnp.column_stack((v, m, h, n))`, i.e. the
stride-4 interleaving `v₀ m₀ h₀ n₀ v₁ m₁ h₁ n₁ …` (truncating at the
shortest column, the well-formed case being equal lengths). -/
def interleave4 : List α → List α → List α → List α → List α
  | v :: vs, m :: ms, h :: hs, n :: ns => v :: m :: h :: n :: interleave4 vs ms hs ns
  | _, _, _, _ => []

/-- Embeds `vectorfield.get_external_input`.  `piv` is the constant
`math.pi`; `zero_vec = jnp.zeros_like(voltages)`, the stimulus window test
is `t >= 5.0 and t <= 5.0 + i_dur`, and the active branch functionally
sets flat index `nseg_per_branch - 1` to
`i_amp / 2 / pi / radius / length_single_compartment`. -/
def get_external_input (piv : α) (voltages : List α)
    (t i_dur i_amp radius length_single_compartment : α)
    (nseg_per_branch : ℕ) : List α :=
  let zero_vec := List.replicate voltages.length (0 : α)
  let current_in_comp := i_amp / 2 / piv / radius / length_single_compartment
  if 5 ≤ t ∧ t ≤ 5 + i_dur then
    zero_vec.set (nseg_per_branch - 1) current_in_comp
  else
    zero_vec

/-- Embeds `vectorfield.get_num_neighbours`: start from the all-2 vector of
length `num_branches * nseg_per_branch`, set flat index
`nseg_per_branch - 1` to `1.0`, then scatter `num_kids + 1.0` at the flat
indices `b * nseg_per_branch` for `b = 0, …, num_branches - 1` (a jax
scatter at distinct indices, realised as sequential functional updates). -/
def get_num_neighbours (num_kids : List α) (nseg_per_branch num_branches : ℕ) : List α :=
  let base := (List.replicate (num_branches * nseg_per_branch) (2 : α)).set
      (nseg_per_branch - 1) 1
  (List.range num_branches).foldl
    (fun nn b => nn.set (b * nseg_per_branch) (num_kids.getD b 0 + 1)) base

/-- Embeds `vectorfield._define_tridiag_for_branch`: the per-branch
tridiagonal system `(lower, diag, upper, rhs)` with
`voltage_terms = na + kd + leak`,
`constant_terms = 50*na + (-90)*kd + (-65)*leak + i_ext`,
`a_v = 1 + dt*voltage_terms + dt*num_neighbours*coupling_conds`,
`b_v = voltages + dt*constant_terms`, and off-diagonals
`[-dt * coupling_conds] * (nseg_per_branch - 1)`. -/
def define_tridiag_for_branch (voltages na_conds kd_conds leak_conds i_ext : List α)
    (dt : α) (num_neighbours : List α) (coupling_conds : α)
    (nseg_per_branch : ℕ) : List α × List α × List α × List α :=
  let voltage_terms := ladd (ladd na_conds kd_conds) leak_conds
  let constant_terms :=
    ladd (ladd (ladd (smul 50 na_conds) (smul (-90) kd_conds)) (smul (-65) leak_conds)) i_ext
  let a_v := List.zipWith
    (fun vt nb => 1 + dt * vt + dt * nb * coupling_conds) voltage_terms num_neighbours
  let b_v := List.zipWith (fun v ct => v + dt * ct) voltages constant_terms
  let upper := List.replicate (nseg_per_branch - 1) (-dt * coupling_conds)
  let lower := List.replicate (nseg_per_branch - 1) (-dt * coupling_conds)
  (lower, a_v, upper, b_v)

/-- The four stacked arrays returned by `define_all_tridiags`
(`jnp.asarray(lowers)` etc.), one row per branch. -/
structure Tridiags (α : Type) where
  lowers : List (List α)
  diags : List (List α)
  uppers : List (List α)
  solves : List (List α)

/-- Embeds `vectorfield.define_all_tridiags`: partition each input into
`num_branches` contiguous blocks of `nseg_per_branch` compartments
(block `b` spans `[b*nseg, (b+1)*nseg)`), run
`_define_tridiag_for_branch` on each block, and stack the four results in
branch order. -/
def define_all_tridiags (voltages na_conds kd_conds leak_conds i_ext num_neighbours : List α)
    (nseg_per_branch num_branches : ℕ) (dt coupling_conds : α) : Tridiags α :=
  let rows := (List.range num_branches).map (fun b =>
    define_tridiag_for_branch
      ((voltages.drop (b * nseg_per_branch)).take nseg_per_branch)
      ((na_conds.drop (b * nseg_per_branch)).take nseg_per_branch)
      ((kd_conds.drop (b * nseg_per_branch)).take nseg_per_branch)
      ((leak_conds.drop (b * nseg_per_branch)).take nseg_per_branch)
      ((i_ext.drop (b * nseg_per_branch)).take nseg_per_branch)
      dt
      ((num_neighbours.drop (b * nseg_per_branch)).take nseg_per_branch)
      coupling_conds nseg_per_branch)
  ⟨rows.map (fun r => r.1), rows.map (fun r => r.2.1),
   rows.map (fun r => r.2.2.1), rows.map (fun r => r.2.2.2)⟩

/-- Modelled from the spec: signatures of the components imported by
`integrate.py` from `neurax.mechanisms` (`solve_gate_implicit`, `m_gate`,
`h_gate`, `n_gate`) and `neurax.implicit_euler` (`solve_branched`), whose
implementations are not under `src/`.  Each gate-rate function maps a
voltage vector to an (opening-rate, closing-rate) pair;
`solve_gate_implicit` advances a gating vector one implicit step;
`solve_branched` maps level groupings, the parent map, the four stacked
tridiagonal arrays and the junction coupling term to one solved voltage
vector per branch. -/
structure Contracts (α : Type) where
  solve_gate_implicit : List α → α → List α → List α → List α
  m_gate : List α → List α × List α
  h_gate : List α → List α × List α
  n_gate : List α → List α × List α
  solve_branched : List (List ℕ) → List ℤ → List (List α) → List (List α) →
    List (List α) → List (List α) → α → List (List α)

/-- Embeds `integrate.find_root`, parameterised over the contract bundle
`c` for the components not under `src/`.  The trailing `nseg_per_branch`
and `num_branches` arguments stand for the module globals
`NSEG_PER_BRANCH` and `NUM_BRANCHES` read inside the function.  The
imported `get_external_input` (from `neurax.stimulus`, not under `src/`)
is modelled from the spec as the `vectorfield.py` implementation shown,
with the `i_delay` keyword accepted and unread (spec section 4.2). -/
def find_root (c : Contracts α) (piv : α) (t : α) (u params : List α)
    (i_delay i_amp i_dur dt radius length_single_compartment : α)
    (num_neighbours : List α) (coupling_conds : α)
    (branches_in_each_level : List (List ℕ)) (parents : List ℤ)
    (nseg_per_branch num_branches : ℕ) : List α :=
  let voltages := strideSlice u 0 4
  let ms := strideSlice u 1 4
  let hs := strideSlice u 2 4
  let ns := strideSlice u 3 4
  let new_m := c.solve_gate_implicit ms dt (c.m_gate voltages).1 (c.m_gate voltages).2
  let new_h := c.solve_gate_implicit hs dt (c.h_gate voltages).1 (c.h_gate voltages).2
  let new_n := c.solve_gate_implicit ns dt (c.n_gate voltages).1 (c.n_gate voltages).2
  let na_conds := lmul (lmul (strideSlice params 0 3) (lpow ms 3)) hs
  let kd_conds := lmul (strideSlice params 1 3) (lpow ns 4)
  let leak_conds := strideSlice params 2 3
  let i_ext := get_external_input piv voltages t i_dur i_amp radius
    length_single_compartment nseg_per_branch
  let sys := define_all_tridiags voltages na_conds kd_conds leak_conds i_ext
    num_neighbours nseg_per_branch num_branches dt coupling_conds
  let solves := c.solve_branched branches_in_each_level parents
    sys.lowers sys.diags sys.uppers sys.solves (-dt * coupling_conds)
  interleave4 solves.flatten new_m new_h new_n

/-- Morphology descriptor (the `cell` object consumed by `solve`);
modelled from the spec's data model (section 3), its fields being exactly
those read by `integrate.py`. -/
structure Cell (α : Type) where
  num_branches : ℕ
  nseg_per_branch : ℕ
  radius : α
  length_single_compartment : α
  num_neighbours : List α
  coupling_conds : α
  branches_in_each_level : List (List ℕ)
  parents : List ℤ

/-- Stimulus descriptor; modelled from the spec's data model (section 3). -/
structure Stimulus (α : Type) where
  i_delay : α
  i_amp : α
  i_dur : α

/-- The 14-tuple threaded through `lax.fori_loop` in `integrate.solve`,
in the order it is packed there. -/
structure LoopState (α : Type) where
  t : α
  u : List α
  params : List α
  i_delay : α
  i_amp : α
  i_dur : α
  dt : α
  radius : α
  length_single_compartment : α
  num_neighbours : List α
  coupling_conds : α
  branches_in_each_level : List (List ℕ)
  parents : List ℤ
  saveat : List α

/-- Embeds `integrate.body_fun`: one `fori_loop` iteration.  `g` is the
pair of module globals `(NUM_BRANCHES, NSEG_PER_BRANCH)` as read inside
`find_root`. -/
def body_fun (c : Contracts α) (piv : α) (g : ℤ × ℤ) (i : ℕ) (s : LoopState α) : LoopState α :=
  let u_inner := find_root c piv s.t s.u s.params s.i_delay s.i_amp s.i_dur s.dt
    s.radius s.length_single_compartment s.num_neighbours s.coupling_conds
    s.branches_in_each_level s.parents g.2.toNat g.1.toNat
  { s with
    t := s.t + s.dt
    u := u_inner
    saveat := s.saveat.set i (u_inner.getD 0 0) }

/-- Embeds `integrate.solve`, with the process-wide globals made explicit:
`g0` is the pair `(NUM_BRANCHES, NSEG_PER_BRANCH)` held before the call,
which `solve` overwrites from `cell` before the loop runs; the loop body
then reads only the overwritten pair.  Returns `final_state[-1]`, the
`saveat` recording buffer. -/
def solve (g0 : ℤ × ℤ) (c : Contracts α) (piv : α) (cell : Cell α) (dt : α)
    (u params : List α) (stimulus : Stimulus α) : List α :=
  let g : ℤ × ℤ := ((cell.num_branches : ℤ), (cell.nseg_per_branch : ℤ))
  let saveat := List.replicate 1000 (0 : α)
  let init : LoopState α :=
    ⟨0, u, params, stimulus.i_delay, stimulus.i_amp, stimulus.i_dur, dt,
     cell.radius, cell.length_single_compartment, cell.num_neighbours,
     cell.coupling_conds, cell.branches_in_each_level, cell.parents, saveat⟩
  let final := (List.range 1000).foldl (fun s i => body_fun c piv g i s) init
  final.saveat

/-- A vector `x` exactly solves the tridiagonal system
`(lower, diag, upper, rhs)` of one branch: row `i` of `A·x = rhs` reads
`lower[i-1]*x[i-1] + diag[i]*x[i] + upper[i]*x[i+1] = rhs[i]` with the
out-of-range terms absent (spec section 4.5's per-branch exactness). -/
def TridiagSol (lower diag upper rhs x : List α) : Prop :=
  x.length = rhs.length ∧ ∀ i, i < rhs.length →
    (if 1 ≤ i then lower.getD (i - 1) 0 * x.getD (i - 1) 0 else 0) +
      diag.getD i 0 * x.getD i 0 +
      (if i + 1 < rhs.length then upper.getD i 0 * x.getD (i + 1) 0 else 0) =
      rhs.getD i 0

/-! ### Indexing helper lemmas -/

theorem getD_of_forall_zero {xs : List α} (h : ∀ x ∈ xs, x = 0) (i : ℕ) :
    xs.getD i 0 = 0 := by
  rw [List.getD_eq_getElem?_getD]
  cases hx : xs[i]? with
  | none => rfl
  | some a => simpa using h a (List.getElem?_mem hx)

theorem list_eq_of_getD {β : Type} (d : β) {xs ys : List β} (hl : xs.length = ys.length)
    (h : ∀ i, i < xs.length → xs.getD i d = ys.getD i d) : xs = ys := by
  apply List.ext_getElem?
  intro n
  by_cases hn : n < xs.length
  · rw [List.getElem?_eq_getElem hn, List.getElem?_eq_getElem (hl ▸ hn)]
    have hx := h n hn
    rw [List.getD_eq_getElem xs d hn, List.getD_eq_getElem ys d (hl ▸ hn)] at hx
    exact congrArg some hx
  · rw [List.getElem?_eq_none (by omega), List.getElem?_eq_none (by omega)]

theorem getD_replicate_zero (n i : ℕ) : (List.replicate n (0 : α)).getD i 0 = 0 := by
  rw [List.getD_eq_getElem?_getD, List.getElem?_replicate]
  split <;> rfl

theorem getD_replicate_of_lt {β : Type} (n : ℕ) (a d : β) {i : ℕ} (h : i < n) :
    (List.replicate n a).getD i d = a := by
  rw [List.getD_eq_getElem?_getD, List.getElem?_replicate, if_pos h]
  rfl

theorem getD_set_self {xs : List α} {i : ℕ} (h : i < xs.length) (a d : α) :
    (xs.set i a).getD i d = a := by
  rw [List.getD_eq_getElem?_getD, List.getElem?_set_self h]
  rfl

theorem getD_set_ne {xs : List α} {i j : ℕ} (h : i ≠ j) (a d : α) :
    (xs.set i a).getD j d = xs.getD j d := by
  rw [List.getD_eq_getElem?_getD, List.getElem?_set_ne h, ← List.getD_eq_getElem?_getD]

theorem getD_zipWith (f : α → α → α) (xs ys : List α) (i : ℕ)
    (h1 : i < xs.length) (h2 : i < ys.length) :
    (List.zipWith f xs ys).getD i 0 = f (xs.getD i 0) (ys.getD i 0) := by
  have hl : i < (List.zipWith f xs ys).length := by
    rw [List.length_zipWith]
    omega
  rw [List.getD_eq_getElem _ _ hl, List.getD_eq_getElem _ _ h1, List.getD_eq_getElem _ _ h2]
  exact List.getElem_zipWith

theorem getD_map (f : α → α) (xs : List α) (i : ℕ) (h : i < xs.length) :
    (xs.map f).getD i 0 = f (xs.getD i 0) := by
  have hl : i < (xs.map f).length := by
    rw [List.length_map]
    exact h
  rw [List.getD_eq_getElem _ _ hl, List.getD_eq_getElem _ _ h]
  simp

theorem getD_block (xs : List α) (m n i : ℕ) (hi : i < n) :
    ((xs.drop m).take n).getD i 0 = xs.getD (m + i) 0 := by
  rw [List.getD_eq_getElem?_getD, List.getD_eq_getElem?_getD, List.getElem?_take,
    if_pos hi, List.getElem?_drop]

theorem length_block {xs : List α} {nb n : ℕ} (hxs : xs.length = nb * n) {b : ℕ}
    (hb : b < nb) : ((xs.drop (b * n)).take n).length = n := by
  rw [List.length_take, List.length_drop, hxs]
  have hle : (b + 1) * n ≤ nb * n := Nat.mul_le_mul_right n hb
  rw [Nat.succ_mul] at hle
  omega

theorem map_getD_range (xs : List α) :
    (List.range xs.length).map (fun i => xs.getD i 0) = xs := by
  apply List.ext_getElem?
  intro n
  rw [List.getElem?_map]
  by_cases hn : n < xs.length
  · rw [List.getElem?_range hn, List.getElem?_eq_getElem hn]
    exact congrArg some (List.getD_eq_getElem xs 0 hn)
  · rw [List.getElem?_eq_none (l := List.range xs.length) (by simpa using not_lt.mp hn),
      List.getElem?_eq_none (not_lt.mp hn)]
    rfl

theorem rows_map_getD {β : Type} (f : ℕ → β) {nb b : ℕ} (hb : b < nb) (d : β) :
    ((List.range nb).map f).getD b d = f b := by
  rw [List.getD_eq_getElem?_getD, List.getElem?_map, List.getElem?_range hb]
  rfl

/-! ### Lemmas about `strideSlice` -/

theorem length_strideSlice (xs : List α) (o s : ℕ) :
    (strideSlice xs o s).length = (xs.length - o + s - 1) / s := by
  simp [strideSlice]

theorem getD_strideSlice (xs : List α) (o s i : ℕ)
    (hi : i < (xs.length - o + s - 1) / s) :
    (strideSlice xs o s).getD i 0 = xs.getD (o + s * i) 0 := by
  rw [strideSlice, List.getD_eq_getElem?_getD, List.getElem?_map, List.getElem?_range hi]
  rfl

theorem forall_strideSlice_zero {xs : List α} (h : ∀ x ∈ xs, x = 0) (o s : ℕ) :
    ∀ y ∈ strideSlice xs o s, y = 0 := by
  intro y hy
  rw [strideSlice, List.mem_map] at hy
  obtain ⟨i, _, rfl⟩ := hy
  exact getD_of_forall_zero h _

/-! ### Lemmas about `interleave4` -/

theorem length_interleave4 : ∀ v m h n : List α,
    (interleave4 v m h n).length =
      4 * min (min v.length m.length) (min h.length n.length)
  | [], m, h, n => by simp [interleave4]
  | v :: vs, [], h, n => by simp [interleave4]
  | v :: vs, m :: ms, [], n => by simp [interleave4]
  | v :: vs, m :: ms, h :: hs, [] => by simp [interleave4]
  | v :: vs, m :: ms, h :: hs, n :: ns => by
    have ih := length_interleave4 vs ms hs ns
    simp only [interleave4, List.length_cons, ih]
    omega

theorem getD_interleave4_four_mul : ∀ (v m h n : List α) (i : ℕ),
    (interleave4 v m h n).getD (4 * i) 0 =
      if i < min (min v.length m.length) (min h.length n.length) then v.getD i 0 else 0
  | [], m, h, n, i => by simp [interleave4]
  | v :: vs, [], h, n, i => by simp [interleave4]
  | v :: vs, m :: ms, [], n, i => by simp [interleave4]
  | v :: vs, m :: ms, h :: hs, [], i => by simp [interleave4]
  | v :: vs, m :: ms, h :: hs, n :: ns, 0 => by
    simp [interleave4]
  | v :: vs, m :: ms, h :: hs, n :: ns, i + 1 => by
    have ih := getD_interleave4_four_mul vs ms hs ns i
    have h4 : 4 * (i + 1) = 4 * i + 1 + 1 + 1 + 1 := by ring
    simp only [interleave4, h4, List.getD_cons_succ, ih, List.length_cons]
    by_cases hi : i < min (min vs.length ms.length) (min hs.length ns.length)
    · rw [if_pos hi, if_pos (by omega)]
    · rw [if_neg hi, if_neg (by omega)]

theorem strideSlice_interleave4_zero (v m h n : List α) :
    strideSlice (interleave4 v m h n) 0 4 =
      (List.range (min (min v.length m.length) (min h.length n.length))).map
        (fun i => v.getD i 0) := by
  rw [strideSlice, length_interleave4]
  have hc : (4 * min (min v.length m.length) (min h.length n.length) - 0 + 4 - 1) / 4 =
      min (min v.length m.length) (min h.length n.length) := by omega
  rw [hc]
  apply List.map_congr_left
  intro i hi
  rw [List.mem_range] at hi
  rw [Nat.zero_add, getD_interleave4_four_mul, if_pos hi]

theorem strideSlice_interleave4_zero_eq {v m h n : List α}
    (hm : m.length = v.length) (hh : h.length = v.length) (hn : n.length = v.length) :
    strideSlice (interleave4 v m h n) 0 4 = v := by
  rw [strideSlice_interleave4_zero, hm, hh, hn]
  simp only [min_self]
  exact map_getD_range v

theorem strideSlice_interleave4_congr {v m h n m' h' n' : List α}
    (hm : m.length = m'.length) (hh : h.length = h'.length)
    (hn : n.length = n'.length) :
    strideSlice (interleave4 v m h n) 0 4 = strideSlice (interleave4 v m' h' n') 0 4 := by
  rw [strideSlice_interleave4_zero, strideSlice_interleave4_zero, hm, hh, hn]

/-! ### Lemmas about the flattening of per-branch blocks -/

theorem flatten_blocks (n : ℕ) : ∀ (nb : ℕ) (L : List α), L.length = nb * n →
    ((List.range nb).map (fun b => (L.drop (b * n)).take n)).flatten = L := by
  intro nb
  induction nb with
  | zero =>
    intro L hL
    simp only [Nat.zero_mul] at hL
    simp [List.eq_nil_of_length_eq_zero hL]
  | succ k ih =>
    intro L hL
    rw [List.range_succ_eq_map, List.map_cons, List.map_map, List.flatten_cons]
    have hcong : (List.range k).map ((fun b => (L.drop (b * n)).take n) ∘ Nat.succ) =
        (List.range k).map (fun b => ((L.drop n).drop (b * n)).take n) := by
      apply List.map_congr_left
      intro b _
      simp only [Function.comp]
      rw [List.drop_drop, Nat.succ_mul, Nat.add_comm (b * n) n]
    rw [hcong, ih (L.drop n) (by rw [List.length_drop, hL, Nat.succ_mul]; omega)]
    simp [List.take_append_drop]

/-! ### Lemmas about the scatter in `get_num_neighbours` -/

theorem length_foldl_set (g : ℕ → α) (step : ℕ) :
    ∀ (l : List ℕ) (acc : List α),
      (l.foldl (fun nn b => nn.set (b * step) (g b)) acc).length = acc.length
  | [], _ => rfl
  | b :: bs, acc => by
    rw [List.foldl_cons, length_foldl_set g step bs, List.length_set]

theorem foldl_set_getD_miss (g : ℕ → α) (step : ℕ) :
    ∀ (l : List ℕ) (acc : List α) (j : ℕ), (∀ b ∈ l, j ≠ b * step) →
      (l.foldl (fun nn b => nn.set (b * step) (g b)) acc).getD j 0 = acc.getD j 0
  | [], _, _, _ => rfl
  | b :: bs, acc, j, h => by
    rw [List.foldl_cons,
      foldl_set_getD_miss g step bs _ j (fun b' hb' => h b' (List.mem_cons_of_mem _ hb'))]
    exact getD_set_ne (fun he => h b (List.mem_cons_self _ _) he.symm) _ _

theorem range_foldl_set_getD_hit (g : ℕ → α) (step : ℕ) (hstep : 1 ≤ step) :
    ∀ (nb : ℕ) (acc : List α) (b : ℕ), b < nb → b * step < acc.length →
      ((List.range nb).foldl (fun nn b' => nn.set (b' * step) (g b')) acc).getD
        (b * step) 0 = g b := by
  intro nb
  induction nb with
  | zero => intro acc b hb _; omega
  | succ k ih =>
    intro acc b hb hlen
    rw [List.range_succ, List.foldl_append, List.foldl_cons, List.foldl_nil]
    by_cases hbk : b = k
    · subst hbk
      apply getD_set_self
      rw [length_foldl_set]
      exact hlen
    · have hne : k * step ≠ b * step := fun he =>
        hbk (Nat.eq_of_mul_eq_mul_right hstep he).symm
      rw [getD_set_ne hne _ _]
      exact ih acc b (by omega) hlen

/-! ### Entry lemmas for the elementwise vector operations -/

theorem length_ladd (xs ys : List α) : (ladd xs ys).length = min xs.length ys.length :=
  List.length_zipWith _ _ _

theorem length_lmul (xs ys : List α) : (lmul xs ys).length = min xs.length ys.length :=
  List.length_zipWith _ _ _

theorem length_smul (c : α) (xs : List α) : (smul c xs).length = xs.length :=
  List.length_map _ _

theorem length_lpow (xs : List α) (n : ℕ) : (lpow xs n).length = xs.length :=
  List.length_map _ _

theorem getD_ladd {xs ys : List α} {i : ℕ} (h1 : i < xs.length) (h2 : i < ys.length) :
    (ladd xs ys).getD i 0 = xs.getD i 0 + ys.getD i 0 :=
  getD_zipWith _ _ _ _ h1 h2

theorem getD_lmul {xs ys : List α} {i : ℕ} (h1 : i < xs.length) (h2 : i < ys.length) :
    (lmul xs ys).getD i 0 = xs.getD i 0 * ys.getD i 0 :=
  getD_zipWith _ _ _ _ h1 h2

theorem getD_smul (c : α) (xs : List α) {i : ℕ} (h : i < xs.length) :
    (smul c xs).getD i 0 = c * xs.getD i 0 :=
  getD_map _ _ _ h

theorem getD_lpow (xs : List α) (n : ℕ) {i : ℕ} (h : i < xs.length) :
    (lpow xs n).getD i 0 = xs.getD i 0 ^ n :=
  getD_map _ _ _ h

theorem map_map_row {β γ : Type} (f : ℕ → β) (p : β → γ) {nb b : ℕ} (hb : b < nb) (d : γ) :
    (((List.range nb).map f).map p).getD b d = p (f b) := by
  rw [List.map_map]
  exact rows_map_getD _ hb d

/-! ### Claim theorems -/

/-- C9: the trace returned by `solve` does not depend on the values held
by the module globals `NUM_BRANCHES` and `NSEG_PER_BRANCH` before the
call: `solve` overwrites both from `cell` before any step-level read, so
two runs from arbitrary prior global states agree. -/
theorem c9_solve_independent_of_prior_globals (g1 g2 : ℤ × ℤ) (c : Contracts α)
    (piv : α) (cell : Cell α) (dt : α) (u params : List α) (st : Stimulus α) :
    solve g1 c piv cell dt u params st = solve g2 c piv cell dt u params st := rfl

/-- C10: `get_external_input` depends on its `voltages` argument only
through its length — two equal-length voltage vectors with identical
remaining arguments produce identical outputs. -/
theorem c10_stimulus_voltage_oblivious (piv : α) (v1 v2 : List α)
    (t i_dur i_amp radius lsc : α) (nseg : ℕ) (hlen : v1.length = v2.length) :
    get_external_input piv v1 t i_dur i_amp radius lsc nseg =
      get_external_input piv v2 t i_dur i_amp radius lsc nseg := by
  unfold get_external_input
  rw [hlen]

theorem c10_stimulus_voltage_oblivious_witness :
    ([(1 : ℚ), 2].length = [(3 : ℚ), 4].length) ∧
      get_external_input (3 : ℚ) [1, 2] 6 7 8 9 10 1 =
        get_external_input (3 : ℚ) [3, 4] 6 7 8 9 10 1 :=
  ⟨rfl, c10_stimulus_voltage_oblivious 3 [1, 2] [3, 4] 6 7 8 9 10 1 rfl⟩

/-- C2 counterexample: at `t = 5`, `i_dur = 1` the stimulus window
`5 ≤ t ≤ 5 + i_dur` is active, yet with amplitude `i_amp = 0` the
returned vector is `[0]` — no nonzero entry — refuting the claim that the
window alone forces exactly one nonzero entry for every `i_amp`. -/
theorem c2_counterexample :
    (5 : ℝ) ≤ 5 ∧ (5 : ℝ) ≤ 5 + 1 ∧
      get_external_input Real.pi [(0 : ℝ)] 5 1 0 1 1 1 = [0] := by
  refine ⟨le_refl _, by norm_num, ?_⟩
  simp only [get_external_input]
  rw [if_pos (⟨le_refl _, by norm_num⟩ : (5 : ℝ) ≤ 5 ∧ (5 : ℝ) ≤ 5 + 1)]
  norm_num [List.set]

/-- C2 (amended): `get_external_input` returns the all-zero vector
whenever `t < 5` or `t > 5 + i_dur`, for any amplitude and geometry; and
when `5 ≤ t ≤ 5 + i_dur`, the output has exactly one nonzero entry — at
flat index `nseg_per_branch − 1` — provided the current density is
nonzero (`i_amp ≠ 0`, `radius ≠ 0`, `length_single_compartment ≠ 0`) and
the injection index is in range (`1 ≤ nseg_per_branch ≤ |voltages|`). -/
theorem c2_amended (v : List ℝ) (t i_dur i_amp radius lsc : ℝ) (nseg : ℕ) :
    ((t < 5 ∨ 5 + i_dur < t) →
      get_external_input Real.pi v t i_dur i_amp radius lsc nseg =
        List.replicate v.length 0) ∧
    (5 ≤ t → t ≤ 5 + i_dur → i_amp ≠ 0 → radius ≠ 0 → lsc ≠ 0 →
      1 ≤ nseg → nseg ≤ v.length →
      (get_external_input Real.pi v t i_dur i_amp radius lsc nseg).getD (nseg - 1) 0 ≠ 0 ∧
      ∀ j < v.length, j ≠ nseg - 1 →
        (get_external_input Real.pi v t i_dur i_amp radius lsc nseg).getD j 0 = 0) := by
  constructor
  · intro hout
    simp only [get_external_input]
    rw [if_neg]
    intro hin
    rcases hout with hlt | hgt
    · exact absurd hin.1 (not_le.mpr hlt)
    · exact absurd hin.2 (not_le.mpr hgt)
  · intro h5 hd ha hr hl h1 hn
    simp only [get_external_input]
    rw [if_pos ⟨h5, hd⟩]
    constructor
    · rw [getD_set_self (by rw [List.length_replicate]; omega) _ _]
      exact div_ne_zero
        (div_ne_zero (div_ne_zero (div_ne_zero ha two_ne_zero) Real.pi_ne_zero) hr) hl
    · intro j hj hne
      rw [getD_set_ne (fun he => hne he.symm) _ _, getD_replicate_zero]

theorem c2_amended_witness :
    (get_external_input Real.pi [(0 : ℝ), 0] 0 1 1 1 1 2 = List.replicate 2 0) ∧
    (get_external_input Real.pi [(0 : ℝ), 0] 5 1 1 1 1 2).getD 1 0 ≠ 0 ∧
    (get_external_input Real.pi [(0 : ℝ), 0] 5 1 1 1 1 2).getD 0 0 = 0 := by
  refine ⟨(c2_amended [(0 : ℝ), 0] 0 1 1 1 1 2).1 (Or.inl (by norm_num)), ?_, ?_⟩
  · exact ((c2_amended [(0 : ℝ), 0] 5 1 1 1 1 2).2 (by norm_num) (by norm_num)
      (by norm_num) (by norm_num) (by norm_num) (by norm_num) (by norm_num)).1
  · exact ((c2_amended [(0 : ℝ), 0] 5 1 1 1 1 2).2 (by norm_num) (by norm_num)
      (by norm_num) (by norm_num) (by norm_num) (by norm_num) (by norm_num)).2 0
      (by norm_num) (by norm_num)

/-- C5: when the stimulus is active (`5 ≤ t ≤ 5 + i_dur`) and the
injection index is in range, the output of `get_external_input` has the
same length as `voltages`, is zero at every index other than
`nseg_per_branch − 1`, carries the value
`i_amp / (2·π·radius·length_single_compartment)` at that index, and in
particular equals `1` there for `i_amp = 2π`, `radius = 1`,
`length_single_compartment = 1`. -/
theorem c5_stimulus_magnitude (v : List ℝ) (t i_dur i_amp radius lsc : ℝ) (nseg : ℕ)
    (h5 : 5 ≤ t) (hd : t ≤ 5 + i_dur) (h1 : 1 ≤ nseg) (hn : nseg ≤ v.length) :
    (get_external_input Real.pi v t i_dur i_amp radius lsc nseg).length = v.length ∧
    (∀ j < v.length, j ≠ nseg - 1 →
      (get_external_input Real.pi v t i_dur i_amp radius lsc nseg).getD j 0 = 0) ∧
    (get_external_input Real.pi v t i_dur i_amp radius lsc nseg).getD (nseg - 1) 0 =
      i_amp / (2 * Real.pi * radius * lsc) ∧
    (i_amp = 2 * Real.pi → radius = 1 → lsc = 1 →
      (get_external_input Real.pi v t i_dur i_amp radius lsc nseg).getD (nseg - 1) 0 = 1) := by
  have hidx : nseg - 1 < (List.replicate v.length (0 : ℝ)).length := by
    rw [List.length_replicate]; omega
  have hval : (get_external_input Real.pi v t i_dur i_amp radius lsc nseg).getD
      (nseg - 1) 0 = i_amp / (2 * Real.pi * radius * lsc) := by
    simp only [get_external_input]
    rw [if_pos ⟨h5, hd⟩, getD_set_self hidx _ _]
    ring
  refine ⟨?_, ?_, hval, ?_⟩
  · simp only [get_external_input]
    rw [if_pos ⟨h5, hd⟩, List.length_set, List.length_replicate]
  · intro j hj hne
    simp only [get_external_input]
    rw [if_pos ⟨h5, hd⟩, getD_set_ne (fun he => hne he.symm) _ _, getD_replicate_zero]
  · intro hamp hrad hlen
    rw [hval, hamp, hrad, hlen, mul_one, mul_one]
    exact div_self (mul_ne_zero two_ne_zero Real.pi_ne_zero)

theorem c5_stimulus_magnitude_witness :
    (get_external_input Real.pi [(0 : ℝ), 0] 5 10 (2 * Real.pi) 1 1 2).length = 2 ∧
    (get_external_input Real.pi [(0 : ℝ), 0] 5 10 (2 * Real.pi) 1 1 2).getD 0 0 = 0 ∧
    (get_external_input Real.pi [(0 : ℝ), 0] 5 10 (2 * Real.pi) 1 1 2).getD 1 0 =
      2 * Real.pi / (2 * Real.pi * 1 * 1) ∧
    (get_external_input Real.pi [(0 : ℝ), 0] 5 10 (2 * Real.pi) 1 1 2).getD 1 0 = 1 :=
  ⟨(c5_stimulus_magnitude [(0 : ℝ), 0] 5 10 (2 * Real.pi) 1 1 2 (le_refl _)
      (by norm_num) (by norm_num) (by norm_num)).1,
    (c5_stimulus_magnitude [(0 : ℝ), 0] 5 10 (2 * Real.pi) 1 1 2 (le_refl _)
      (by norm_num) (by norm_num) (by norm_num)).2.1 0 (by norm_num) (by norm_num),
    (c5_stimulus_magnitude [(0 : ℝ), 0] 5 10 (2 * Real.pi) 1 1 2 (le_refl _)
      (by norm_num) (by norm_num) (by norm_num)).2.2.1,
    (c5_stimulus_magnitude [(0 : ℝ), 0] 5 10 (2 * Real.pi) 1 1 2 (le_refl _)
      (by norm_num) (by norm_num) (by norm_num)).2.2.2 rfl rfl rfl⟩

/-- C1 counterexample: for `num_kids = [0, 0]`, `nseg_per_branch = 2`,
`num_branches = 2`, the code computes `[1, 1, 1, 2]`: the last compartment
of branch 1 (flat index 3) holds 2 neighbours, not the 1 the claim
demands for the last compartment of every branch. -/
theorem c1_counterexample :
    (get_num_neighbours ([0, 0] : List ℚ) 2 2).getD 3 0 = 2 ∧ (2 : ℚ) ≠ 1 := by
  constructor
  · decide
  · norm_num

/-- C1 (amended): `get_num_neighbours` returns a vector of length
`num_branches × nseg_per_branch` in which the first compartment of every
branch `b` (flat index `b·nseg_per_branch`) holds `num_kids[b] + 1`, and
every non-first compartment holds 2 — except the single flat index
`nseg_per_branch − 1` (the last compartment of branch 0 only), which
holds 1.  The last compartments of branches other than branch 0 keep the
interior value 2; the code sets only the one flat index, not one per
branch. -/
theorem c1_amended (num_kids : List α) (nseg nb : ℕ)
    (hkids : num_kids.length = nb) (hnseg : 1 ≤ nseg) :
    (get_num_neighbours num_kids nseg nb).length = nb * nseg ∧
    (∀ b, b < nb →
      (get_num_neighbours num_kids nseg nb).getD (b * nseg) 0 = num_kids.getD b 0 + 1) ∧
    (∀ b i, b < nb → 1 ≤ i → i < nseg →
      (get_num_neighbours num_kids nseg nb).getD (b * nseg + i) 0 =
        if b = 0 ∧ i = nseg - 1 then 1 else 2) := by
  refine ⟨?_, ?_, ?_⟩
  · simp only [get_num_neighbours]
    rw [length_foldl_set, List.length_set, List.length_replicate]
  · intro b hb
    have hblt : b * nseg < nb * nseg := by
      have h1 : (b + 1) * nseg ≤ nb * nseg := Nat.mul_le_mul_right _ hb
      rw [Nat.succ_mul] at h1
      omega
    simp only [get_num_neighbours]
    exact range_foldl_set_getD_hit _ nseg hnseg nb _ b hb
      (by rw [List.length_set, List.length_replicate]; exact hblt)
  · intro b i hb hi1 hi2
    have hblt : b * nseg + i < nb * nseg := by
      have h1 : (b + 1) * nseg ≤ nb * nseg := Nat.mul_le_mul_right _ hb
      rw [Nat.succ_mul] at h1
      omega
    have hmiss : ∀ b' ∈ List.range nb, b * nseg + i ≠ b' * nseg := by
      intro b' hb' he
      rcases le_or_lt b' b with hle | hgt
      · have h1 : b' * nseg ≤ b * nseg := Nat.mul_le_mul_right _ hle
        omega
      · have h1 : (b + 1) * nseg ≤ b' * nseg := Nat.mul_le_mul_right _ hgt
        rw [Nat.succ_mul] at h1
        omega
    simp only [get_num_neighbours]
    rw [foldl_set_getD_miss _ _ _ _ _ hmiss]
    by_cases hcase : b = 0 ∧ i = nseg - 1
    · obtain ⟨rfl, rfl⟩ := hcase
      rw [if_pos ⟨rfl, rfl⟩]
      have hj : 0 * nseg + (nseg - 1) = nseg - 1 := by omega
      rw [hj]
      exact getD_set_self (by rw [List.length_replicate]; omega) _ _
    · rw [if_neg hcase]
      have hne : nseg - 1 ≠ b * nseg + i := by
        intro he
        rcases Nat.eq_zero_or_pos b with rfl | hbpos
        · exact hcase ⟨rfl, by omega⟩
        · have h1 : 1 * nseg ≤ b * nseg := Nat.mul_le_mul_right _ hbpos
          omega
      rw [getD_set_ne hne _ _]
      exact getD_replicate_of_lt _ _ _ hblt

theorem c1_amended_witness :
    ((get_num_neighbours ([2, 0, 0] : List ℚ) 4 3).length = 3 * 4) ∧
    (get_num_neighbours ([2, 0, 0] : List ℚ) 4 3).getD (0 * 4) 0 =
      ([2, 0, 0] : List ℚ).getD 0 0 + 1 ∧
    (get_num_neighbours ([2, 0, 0] : List ℚ) 4 3).getD (1 * 4) 0 =
      ([2, 0, 0] : List ℚ).getD 1 0 + 1 ∧
    (get_num_neighbours ([2, 0, 0] : List ℚ) 4 3).getD (0 * 4 + 3) 0 =
      (if 0 = 0 ∧ 3 = 4 - 1 then (1 : ℚ) else 2) ∧
    (get_num_neighbours ([2, 0, 0] : List ℚ) 4 3).getD (1 * 4 + 3) 0 =
      (if 1 = 0 ∧ 3 = 4 - 1 then (1 : ℚ) else 2) :=
  ⟨(c1_amended ([2, 0, 0] : List ℚ) 4 3 rfl (by norm_num)).1,
    (c1_amended ([2, 0, 0] : List ℚ) 4 3 rfl (by norm_num)).2.1 0 (by norm_num),
    (c1_amended ([2, 0, 0] : List ℚ) 4 3 rfl (by norm_num)).2.1 1 (by norm_num),
    (c1_amended ([2, 0, 0] : List ℚ) 4 3 rfl (by norm_num)).2.2 0 3 (by norm_num)
      (by norm_num) (by norm_num),
    (c1_amended ([2, 0, 0] : List ℚ) 4 3 rfl (by norm_num)).2.2 1 3 (by norm_num)
      (by norm_num) (by norm_num)⟩

/-- C3: for every branch block `b`, `define_all_tridiags` produces the
diagonal `a_v = 1 + dt·(na + kd + leak) + dt·num_neighbours·coupling_conds`
and right-hand side
`b_v = voltages + dt·(50·na − 90·kd − 65·leak + i_ext)` entrywise over the
block `[b·nseg, (b+1)·nseg)`, and upper and lower off-diagonals equal to
the constant list of `nseg − 1` copies of `−dt·coupling_conds`, for
equal-length inputs of combined length `num_branches · nseg_per_branch`. -/
theorem c3_branch_system_coefficients (voltages na kd leak i_ext nn : List α)
    (nseg nb : ℕ) (dt cc : α)
    (hv : voltages.length = nb * nseg) (hna : na.length = nb * nseg)
    (hkd : kd.length = nb * nseg) (hleak : leak.length = nb * nseg)
    (hie : i_ext.length = nb * nseg) (hnn : nn.length = nb * nseg) :
    ∀ b, b < nb →
      ((define_all_tridiags voltages na kd leak i_ext nn nseg nb dt cc).diags.getD b
          []).length = nseg ∧
      (∀ i, i < nseg →
        ((define_all_tridiags voltages na kd leak i_ext nn nseg nb dt cc).diags.getD b
            []).getD i 0 =
          1 + dt * (na.getD (b * nseg + i) 0 + kd.getD (b * nseg + i) 0 +
            leak.getD (b * nseg + i) 0) + dt * nn.getD (b * nseg + i) 0 * cc) ∧
      ((define_all_tridiags voltages na kd leak i_ext nn nseg nb dt cc).solves.getD b
          []).length = nseg ∧
      (∀ i, i < nseg →
        ((define_all_tridiags voltages na kd leak i_ext nn nseg nb dt cc).solves.getD b
            []).getD i 0 =
          voltages.getD (b * nseg + i) 0 +
            dt * (50 * na.getD (b * nseg + i) 0 + (-90) * kd.getD (b * nseg + i) 0 +
              (-65) * leak.getD (b * nseg + i) 0 + i_ext.getD (b * nseg + i) 0)) ∧
      (define_all_tridiags voltages na kd leak i_ext nn nseg nb dt cc).uppers.getD b [] =
        List.replicate (nseg - 1) (-dt * cc) ∧
      (define_all_tridiags voltages na kd leak i_ext nn nseg nb dt cc).lowers.getD b [] =
        List.replicate (nseg - 1) (-dt * cc) := by
  intro b hb
  have hbv := length_block hv hb
  have hbna := length_block hna hb
  have hbkd := length_block hkd hb
  have hbleak := length_block hleak hb
  have hbie := length_block hie hb
  have hbnn := length_block hnn hb
  have hdiag : (define_all_tridiags voltages na kd leak i_ext nn nseg nb dt cc).diags.getD
      b [] =
      List.zipWith (fun vt nbr => 1 + dt * vt + dt * nbr * cc)
        (ladd (ladd ((na.drop (b * nseg)).take nseg) ((kd.drop (b * nseg)).take nseg))
          ((leak.drop (b * nseg)).take nseg))
        ((nn.drop (b * nseg)).take nseg) := by
    simp only [define_all_tridiags, define_tridiag_for_branch, List.map_map]
    rw [rows_map_getD _ hb]
    rfl
  have hsol : (define_all_tridiags voltages na kd leak i_ext nn nseg nb dt cc).solves.getD
      b [] =
      List.zipWith (fun v ct => v + dt * ct) ((voltages.drop (b * nseg)).take nseg)
        (ladd (ladd (ladd (smul 50 ((na.drop (b * nseg)).take nseg))
            (smul (-90) ((kd.drop (b * nseg)).take nseg)))
            (smul (-65) ((leak.drop (b * nseg)).take nseg)))
          ((i_ext.drop (b * nseg)).take nseg)) := by
    simp only [define_all_tridiags, define_tridiag_for_branch, List.map_map]
    rw [rows_map_getD _ hb]
    rfl
  have hupper : (define_all_tridiags voltages na kd leak i_ext nn nseg nb dt
      cc).uppers.getD b [] = List.replicate (nseg - 1) (-dt * cc) := by
    simp only [define_all_tridiags, define_tridiag_for_branch, List.map_map]
    rw [rows_map_getD _ hb]
    rfl
  have hlower : (define_all_tridiags voltages na kd leak i_ext nn nseg nb dt
      cc).lowers.getD b [] = List.replicate (nseg - 1) (-dt * cc) := by
    simp only [define_all_tridiags, define_tridiag_for_branch, List.map_map]
    rw [rows_map_getD _ hb]
    rfl
  refine ⟨?_, ?_, ?_, ?_, hupper, hlower⟩
  · rw [hdiag, List.length_zipWith, length_ladd, length_ladd, hbna, hbkd, hbleak, hbnn]
    omega
  · intro i hi
    rw [hdiag,
      getD_zipWith _ _ _ i
        (by rw [length_ladd, length_ladd, hbna, hbkd, hbleak]; omega)
        (by rw [hbnn]; exact hi),
      getD_ladd (by rw [length_ladd, hbna, hbkd]; omega) (by rw [hbleak]; exact hi),
      getD_ladd (by rw [hbna]; exact hi) (by rw [hbkd]; exact hi),
      getD_block na _ _ _ hi, getD_block kd _ _ _ hi, getD_block leak _ _ _ hi,
      getD_block nn _ _ _ hi]
  · rw [hsol, List.length_zipWith, hbv, length_ladd, length_ladd, length_ladd,
      length_smul, length_smul, length_smul, hbna, hbkd, hbleak, hbie]
    omega
  · intro i hi
    rw [hsol,
      getD_zipWith _ _ _ i (by rw [hbv]; exact hi)
        (by rw [length_ladd, length_ladd, length_ladd, length_smul, length_smul,
          length_smul, hbna, hbkd, hbleak, hbie]; omega),
      getD_ladd
        (by rw [length_ladd, length_ladd, length_smul, length_smul, length_smul,
          hbna, hbkd, hbleak]; omega)
        (by rw [hbie]; exact hi),
      getD_ladd
        (by rw [length_ladd, length_smul, length_smul, hbna, hbkd]; omega)
        (by rw [length_smul, hbleak]; exact hi),
      getD_ladd (by rw [length_smul, hbna]; exact hi) (by rw [length_smul, hbkd]; exact hi),
      getD_smul _ _ (by rw [hbna]; exact hi), getD_smul _ _ (by rw [hbkd]; exact hi),
      getD_smul _ _ (by rw [hbleak]; exact hi),
      getD_block voltages _ _ _ hi, getD_block na _ _ _ hi, getD_block kd _ _ _ hi,
      getD_block leak _ _ _ hi, getD_block i_ext _ _ _ hi]

theorem c3_witness :
    ((define_all_tridiags ([1, 2] : List ℚ) [3, 4] [5, 6] [7, 8] [9, 10] [11, 12]
        2 1 (1/2) 13).diags.getD 0 []).length = 2 ∧
    ((define_all_tridiags ([1, 2] : List ℚ) [3, 4] [5, 6] [7, 8] [9, 10] [11, 12]
        2 1 (1/2) 13).diags.getD 0 []).getD 1 0 =
      1 + 1/2 * (([3, 4] : List ℚ).getD (0 * 2 + 1) 0 +
        ([5, 6] : List ℚ).getD (0 * 2 + 1) 0 +
        ([7, 8] : List ℚ).getD (0 * 2 + 1) 0) +
        1/2 * ([11, 12] : List ℚ).getD (0 * 2 + 1) 0 * 13 ∧
    ((define_all_tridiags ([1, 2] : List ℚ) [3, 4] [5, 6] [7, 8] [9, 10] [11, 12]
        2 1 (1/2) 13).solves.getD 0 []).length = 2 ∧
    ((define_all_tridiags ([1, 2] : List ℚ) [3, 4] [5, 6] [7, 8] [9, 10] [11, 12]
        2 1 (1/2) 13).solves.getD 0 []).getD 1 0 =
      ([1, 2] : List ℚ).getD (0 * 2 + 1) 0 +
        1/2 * (50 * ([3, 4] : List ℚ).getD (0 * 2 + 1) 0 +
          (-90) * ([5, 6] : List ℚ).getD (0 * 2 + 1) 0 +
          (-65) * ([7, 8] : List ℚ).getD (0 * 2 + 1) 0 +
          ([9, 10] : List ℚ).getD (0 * 2 + 1) 0) ∧
    (define_all_tridiags ([1, 2] : List ℚ) [3, 4] [5, 6] [7, 8] [9, 10] [11, 12]
        2 1 (1/2) 13).uppers.getD 0 [] = List.replicate (2 - 1) (-(1/2) * 13) ∧
    (define_all_tridiags ([1, 2] : List ℚ) [3, 4] [5, 6] [7, 8] [9, 10] [11, 12]
        2 1 (1/2) 13).lowers.getD 0 [] = List.replicate (2 - 1) (-(1/2) * 13) :=
  ⟨(c3_branch_system_coefficients ([1, 2] : List ℚ) [3, 4] [5, 6] [7, 8] [9, 10]
      [11, 12] 2 1 (1/2) 13 rfl rfl rfl rfl rfl rfl 0 (by norm_num)).1,
    (c3_branch_system_coefficients ([1, 2] : List ℚ) [3, 4] [5, 6] [7, 8] [9, 10]
      [11, 12] 2 1 (1/2) 13 rfl rfl rfl rfl rfl rfl 0 (by norm_num)).2.1 1 (by norm_num),
    (c3_branch_system_coefficients ([1, 2] : List ℚ) [3, 4] [5, 6] [7, 8] [9, 10]
      [11, 12] 2 1 (1/2) 13 rfl rfl rfl rfl rfl rfl 0 (by norm_num)).2.2.1,
    (c3_branch_system_coefficients ([1, 2] : List ℚ) [3, 4] [5, 6] [7, 8] [9, 10]
      [11, 12] 2 1 (1/2) 13 rfl rfl rfl rfl rfl rfl 0 (by norm_num)).2.2.2.1 1
      (by norm_num),
    (c3_branch_system_coefficients ([1, 2] : List ℚ) [3, 4] [5, 6] [7, 8] [9, 10]
      [11, 12] 2 1 (1/2) 13 rfl rfl rfl rfl rfl rfl 0 (by norm_num)).2.2.2.2.1,
    (c3_branch_system_coefficients ([1, 2] : List ℚ) [3, 4] [5, 6] [7, 8] [9, 10]
      [11, 12] 2 1 (1/2) 13 rfl rfl rfl rfl rfl rfl 0 (by norm_num)).2.2.2.2.2⟩

/-- C6: concatenating the per-branch `rhs` outputs of
`define_all_tridiags` in branch order reproduces, entry for entry, the
vector `voltages + dt·(50·na − 90·kd − 65·leak + i_ext)` computed directly
on the unpartitioned input vectors — partitioning into branch blocks and
re-assembling commutes with the direct per-compartment assembly. -/
theorem c6_branch_assembly_order_preserving (voltages na kd leak i_ext nn : List α)
    (nseg nb : ℕ) (dt cc : α)
    (hv : voltages.length = nb * nseg) (hna : na.length = nb * nseg)
    (hkd : kd.length = nb * nseg) (hleak : leak.length = nb * nseg)
    (hie : i_ext.length = nb * nseg) (hnn : nn.length = nb * nseg) :
    (define_all_tridiags voltages na kd leak i_ext nn nseg nb dt cc).solves.flatten =
      List.zipWith (fun v ct => v + dt * ct) voltages
        (ladd (ladd (ladd (smul 50 na) (smul (-90) kd)) (smul (-65) leak)) i_ext) ∧
    (∀ k, k < nb * nseg →
      ((define_all_tridiags voltages na kd leak i_ext nn nseg nb dt
          cc).solves.flatten).getD k 0 =
        voltages.getD k 0 + dt * (50 * na.getD k 0 + (-90) * kd.getD k 0 +
          (-65) * leak.getD k 0 + i_ext.getD k 0)) := by
  have hblk : ∀ (xs ys : List α) (f : α → α → α) (m n : ℕ),
      ((List.zipWith f xs ys).drop m).take n =
        List.zipWith f ((xs.drop m).take n) ((ys.drop m).take n) := by
    intro xs ys f m n
    rw [List.drop_zipWith, List.take_zipWith]
  have hblkmap : ∀ (xs : List α) (f : α → α) (m n : ℕ),
      ((xs.map f).drop m).take n = ((xs.drop m).take n).map f := by
    intro xs f m n
    rw [← List.map_drop, ← List.map_take]
  have hFlen : (List.zipWith (fun v ct => v + dt * ct) voltages
      (ladd (ladd (ladd (smul 50 na) (smul (-90) kd)) (smul (-65) leak)) i_ext)).length =
      nb * nseg := by
    rw [List.length_zipWith, hv, length_ladd, length_ladd, length_ladd, length_smul,
      length_smul, length_smul, hna, hkd, hleak, hie]
    omega
  have hmain : (define_all_tridiags voltages na kd leak i_ext nn nseg nb dt cc).solves =
      (List.range nb).map (fun b =>
        ((List.zipWith (fun v ct => v + dt * ct) voltages
          (ladd (ladd (ladd (smul 50 na) (smul (-90) kd)) (smul (-65) leak))
            i_ext)).drop (b * nseg)).take nseg) := by
    simp only [define_all_tridiags, define_tridiag_for_branch, List.map_map]
    apply List.map_congr_left
    intro b _
    simp only [Function.comp, ladd, smul, hblk, hblkmap]
  have hflat : (define_all_tridiags voltages na kd leak i_ext nn nseg nb dt
      cc).solves.flatten =
      List.zipWith (fun v ct => v + dt * ct) voltages
        (ladd (ladd (ladd (smul 50 na) (smul (-90) kd)) (smul (-65) leak)) i_ext) := by
    rw [hmain]
    exact flatten_blocks nseg nb _ hFlen
  refine ⟨hflat, ?_⟩
  intro k hk
  rw [hflat,
    getD_zipWith _ _ _ k (by rw [hv]; exact hk)
      (by rw [length_ladd, length_ladd, length_ladd, length_smul, length_smul,
        length_smul, hna, hkd, hleak, hie]; omega),
    getD_ladd
      (by rw [length_ladd, length_ladd, length_smul, length_smul, length_smul,
        hna, hkd, hleak]; omega)
      (by rw [hie]; exact hk),
    getD_ladd
      (by rw [length_ladd, length_smul, length_smul, hna, hkd]; omega)
      (by rw [length_smul, hleak]; exact hk),
    getD_ladd (by rw [length_smul, hna]; exact hk) (by rw [length_smul, hkd]; exact hk),
    getD_smul _ _ (by rw [hna]; exact hk), getD_smul _ _ (by rw [hkd]; exact hk),
    getD_smul _ _ (by rw [hleak]; exact hk)]

theorem c6_witness :
    (define_all_tridiags ([1, 2] : List ℚ) [3, 4] [5, 6] [7, 8] [9, 10] [11, 12]
        1 2 (1/2) 13).solves.flatten =
      List.zipWith (fun v ct => v + (1/2 : ℚ) * ct) [1, 2]
        (ladd (ladd (ladd (smul 50 [3, 4]) (smul (-90) [5, 6])) (smul (-65) [7, 8]))
          [9, 10]) ∧
    ((define_all_tridiags ([1, 2] : List ℚ) [3, 4] [5, 6] [7, 8] [9, 10] [11, 12]
        1 2 (1/2) 13).solves.flatten).getD 0 0 =
      ([1, 2] : List ℚ).getD 0 0 + 1/2 * (50 * ([3, 4] : List ℚ).getD 0 0 +
        (-90) * ([5, 6] : List ℚ).getD 0 0 + (-65) * ([7, 8] : List ℚ).getD 0 0 +
        ([9, 10] : List ℚ).getD 0 0) :=
  ⟨(c6_branch_assembly_order_preserving ([1, 2] : List ℚ) [3, 4] [5, 6] [7, 8]
      [9, 10] [11, 12] 1 2 (1/2) 13 rfl rfl rfl rfl rfl rfl).1,
    (c6_branch_assembly_order_preserving ([1, 2] : List ℚ) [3, 4] [5, 6] [7, 8]
      [9, 10] [11, 12] 1 2 (1/2) 13 rfl rfl rfl rfl rfl rfl).2 0 (by norm_num)⟩

/-! ### Zero-propagation and per-row lemmas for the assembled systems -/

theorem forall_zipWith_left {f : α → α → α} (hf : ∀ y, f 0 y = 0) :
    ∀ (xs ys : List α), (∀ x ∈ xs, x = 0) → ∀ z ∈ List.zipWith f xs ys, z = 0
  | [], _, _ => by simp
  | x :: xs, [], h => by simp
  | x :: xs, y :: ys, h => by
    intro z hz
    rw [List.zipWith_cons_cons] at hz
    rcases List.mem_cons.mp hz with rfl | hmem
    · rw [h x (List.mem_cons_self _ _), hf]
    · exact forall_zipWith_left hf xs ys
        (fun a ha => h a (List.mem_cons_of_mem _ ha)) z hmem

theorem set_replicate_zero (n k : ℕ) :
    (List.replicate n (0 : α)).set k 0 = List.replicate n 0 := by
  apply list_eq_of_getD 0 (by rw [List.length_set])
  intro i hi
  rw [List.length_set, List.length_replicate] at hi
  by_cases hik : k = i
  · subst hik
    rw [getD_set_self (by rw [List.length_replicate]; exact hi) _ _, getD_replicate_zero]
  · rw [getD_set_ne hik _ _]

theorem tridiags_length_lowers (voltages na kd leak i_ext nn : List α) (nseg nb : ℕ)
    (dt cc : α) :
    (define_all_tridiags voltages na kd leak i_ext nn nseg nb dt cc).lowers.length =
      nb := by
  simp [define_all_tridiags]

theorem tridiags_length_diags (voltages na kd leak i_ext nn : List α) (nseg nb : ℕ)
    (dt cc : α) :
    (define_all_tridiags voltages na kd leak i_ext nn nseg nb dt cc).diags.length =
      nb := by
  simp [define_all_tridiags]

theorem tridiags_length_uppers (voltages na kd leak i_ext nn : List α) (nseg nb : ℕ)
    (dt cc : α) :
    (define_all_tridiags voltages na kd leak i_ext nn nseg nb dt cc).uppers.length =
      nb := by
  simp [define_all_tridiags]

theorem tridiags_length_solves (voltages na kd leak i_ext nn : List α) (nseg nb : ℕ)
    (dt cc : α) :
    (define_all_tridiags voltages na kd leak i_ext nn nseg nb dt cc).solves.length =
      nb := by
  simp [define_all_tridiags]

theorem tridiags_row_lowers (voltages na kd leak i_ext nn : List α) (nseg nb : ℕ)
    (dt cc : α) {b : ℕ} (hb : b < nb) :
    (define_all_tridiags voltages na kd leak i_ext nn nseg nb dt cc).lowers.getD b [] =
      List.replicate (nseg - 1) (-dt * cc) := by
  simp only [define_all_tridiags, define_tridiag_for_branch, List.map_map]
  rw [rows_map_getD _ hb]
  rfl

theorem tridiags_row_uppers (voltages na kd leak i_ext nn : List α) (nseg nb : ℕ)
    (dt cc : α) {b : ℕ} (hb : b < nb) :
    (define_all_tridiags voltages na kd leak i_ext nn nseg nb dt cc).uppers.getD b [] =
      List.replicate (nseg - 1) (-dt * cc) := by
  simp only [define_all_tridiags, define_tridiag_for_branch, List.map_map]
  rw [rows_map_getD _ hb]
  rfl

theorem tridiags_row_diags (voltages na kd leak i_ext nn : List α) (nseg nb : ℕ)
    (dt cc : α) {b : ℕ} (hb : b < nb) :
    (define_all_tridiags voltages na kd leak i_ext nn nseg nb dt cc).diags.getD b [] =
      List.zipWith (fun vt nbr => 1 + dt * vt + dt * nbr * cc)
        (ladd (ladd ((na.drop (b * nseg)).take nseg) ((kd.drop (b * nseg)).take nseg))
          ((leak.drop (b * nseg)).take nseg))
        ((nn.drop (b * nseg)).take nseg) := by
  simp only [define_all_tridiags, define_tridiag_for_branch, List.map_map]
  rw [rows_map_getD _ hb]
  rfl

theorem tridiags_row_solves (voltages na kd leak i_ext nn : List α) (nseg nb : ℕ)
    (dt cc : α) {b : ℕ} (hb : b < nb) :
    (define_all_tridiags voltages na kd leak i_ext nn nseg nb dt cc).solves.getD b [] =
      List.zipWith (fun v ct => v + dt * ct) ((voltages.drop (b * nseg)).take nseg)
        (ladd (ladd (ladd (smul 50 ((na.drop (b * nseg)).take nseg))
            (smul (-90) ((kd.drop (b * nseg)).take nseg)))
            (smul (-65) ((leak.drop (b * nseg)).take nseg)))
          ((i_ext.drop (b * nseg)).take nseg)) := by
  simp only [define_all_tridiags, define_tridiag_for_branch, List.map_map]
  rw [rows_map_getD _ hb]
  rfl

/-- For all-zero coefficient systems the unique exact solution of a branch
system with unit diagonal and zero off-diagonals is its right-hand side. -/
theorem tridiagSol_identity_unique {lower diag upper rhs x : List α}
    (hl : ∀ e ∈ lower, e = 0) (hu : ∀ e ∈ upper, e = 0)
    (hd : diag = List.replicate rhs.length 1)
    (hsol : TridiagSol lower diag upper rhs x) : x = rhs := by
  obtain ⟨hlen, heq⟩ := hsol
  apply list_eq_of_getD 0 hlen
  intro i hi
  rw [hlen] at hi
  have h := heq i hi
  rw [hd, getD_replicate_of_lt _ _ _ hi, getD_of_forall_zero hl,
    getD_of_forall_zero hu] at h
  have h1 : (if 1 ≤ i then (0 : α) * x.getD (i - 1) 0 else 0) = 0 := by
    split <;> ring
  have h2 : (if i + 1 < rhs.length then (0 : α) * x.getD (i + 1) 0 else 0) = 0 := by
    split <;> ring
  rw [h1, h2, zero_add, one_mul, add_zero] at h
  exact h

/-- Concrete contract bundle over `ℚ` whose gating update shifts every
gate by one and whose branched solver returns the rhs vectors unchanged;
used to exercise driver theorems on explicit inputs. -/
def dummyContractsA : Contracts ℚ :=
  ⟨fun g _ _ _ => g.map (fun x => x + 1), fun v => (v, v), fun v => (v, v),
   fun v => (v, v), fun _ _ _ _ _ s _ => s⟩

/-- Concrete contract bundle over `ℚ` whose gating update is the identity
and whose branched solver returns the rhs vectors unchanged. -/
def dummyContractsB : Contracts ℚ :=
  ⟨fun g _ _ _ => g, fun _ => ([], []), fun _ => ([], []), fun _ => ([], []),
   fun _ _ _ _ _ s _ => s⟩

/-- C7: in each per-step update, the three ionic conductance vectors are
computed from the pre-step gating values — `na = params[0::3]·m³·h`,
`kd = params[1::3]·n⁴`, `leak = params[2::3]` with `m, h, n` the stride-4
slices of the incoming state `u` — not from the freshly updated gating
vectors: `find_root` assembles the tridiagonal systems from exactly those
slices, and consequently the voltage part of its output is invariant
under any replacement of the gating-kinetics components (for
length-preserving gating updates and a shared branched solver). -/
theorem c7_conductances_from_prestep_gates (c c' : Contracts α) (piv : α) (t : α)
    (u params : List α) (i_delay i_amp i_dur dt radius lsc : α) (nn : List α)
    (cc : α) (lev : List (List ℕ)) (par : List ℤ) (nseg nb : ℕ)
    (hsb : c.solve_branched = c'.solve_branched)
    (hg : ∀ (g : List α) (d : α) (a b : List α),
      (c.solve_gate_implicit g d a b).length = g.length)
    (hg' : ∀ (g : List α) (d : α) (a b : List α),
      (c'.solve_gate_implicit g d a b).length = g.length) :
    (find_root c piv t u params i_delay i_amp i_dur dt radius lsc nn cc lev par
        nseg nb =
      interleave4
        ((c.solve_branched lev par
          (define_all_tridiags (strideSlice u 0 4)
            (lmul (lmul (strideSlice params 0 3) (lpow (strideSlice u 1 4) 3))
              (strideSlice u 2 4))
            (lmul (strideSlice params 1 3) (lpow (strideSlice u 3 4) 4))
            (strideSlice params 2 3)
            (get_external_input piv (strideSlice u 0 4) t i_dur i_amp radius lsc nseg)
            nn nseg nb dt cc).lowers
          (define_all_tridiags (strideSlice u 0 4)
            (lmul (lmul (strideSlice params 0 3) (lpow (strideSlice u 1 4) 3))
              (strideSlice u 2 4))
            (lmul (strideSlice params 1 3) (lpow (strideSlice u 3 4) 4))
            (strideSlice params 2 3)
            (get_external_input piv (strideSlice u 0 4) t i_dur i_amp radius lsc nseg)
            nn nseg nb dt cc).diags
          (define_all_tridiags (strideSlice u 0 4)
            (lmul (lmul (strideSlice params 0 3) (lpow (strideSlice u 1 4) 3))
              (strideSlice u 2 4))
            (lmul (strideSlice params 1 3) (lpow (strideSlice u 3 4) 4))
            (strideSlice params 2 3)
            (get_external_input piv (strideSlice u 0 4) t i_dur i_amp radius lsc nseg)
            nn nseg nb dt cc).uppers
          (define_all_tridiags (strideSlice u 0 4)
            (lmul (lmul (strideSlice params 0 3) (lpow (strideSlice u 1 4) 3))
              (strideSlice u 2 4))
            (lmul (strideSlice params 1 3) (lpow (strideSlice u 3 4) 4))
            (strideSlice params 2 3)
            (get_external_input piv (strideSlice u 0 4) t i_dur i_amp radius lsc nseg)
            nn nseg nb dt cc).solves
          (-dt * cc)).flatten)
        (c.solve_gate_implicit (strideSlice u 1 4) dt
          (c.m_gate (strideSlice u 0 4)).1 (c.m_gate (strideSlice u 0 4)).2)
        (c.solve_gate_implicit (strideSlice u 2 4) dt
          (c.h_gate (strideSlice u 0 4)).1 (c.h_gate (strideSlice u 0 4)).2)
        (c.solve_gate_implicit (strideSlice u 3 4) dt
          (c.n_gate (strideSlice u 0 4)).1 (c.n_gate (strideSlice u 0 4)).2)) ∧
    strideSlice (find_root c piv t u params i_delay i_amp i_dur dt radius lsc nn cc
      lev par nseg nb) 0 4 =
      strideSlice (find_root c' piv t u params i_delay i_amp i_dur dt radius lsc nn cc
        lev par nseg nb) 0 4 := by
  constructor
  · rfl
  · show strideSlice (interleave4 _ _ _ _) 0 4 = strideSlice (interleave4 _ _ _ _) 0 4
    rw [hsb]
    exact strideSlice_interleave4_congr ((hg _ _ _ _).trans (hg' _ _ _ _).symm)
      ((hg _ _ _ _).trans (hg' _ _ _ _).symm) ((hg _ _ _ _).trans (hg' _ _ _ _).symm)

theorem c7_witness :
    strideSlice (find_root dummyContractsA 3 0 [1, 2, 3, 4] [5, 6, 7] 0 1 1 (1/2) 1 1
      [1] 0 [[0]] [-1] 1 1) 0 4 =
    strideSlice (find_root dummyContractsB 3 0 [1, 2, 3, 4] [5, 6, 7] 0 1 1 (1/2) 1 1
      [1] 0 [[0]] [-1] 1 1) 0 4 :=
  (c7_conductances_from_prestep_gates dummyContractsA dummyContractsB 3 0 [1, 2, 3, 4]
    [5, 6, 7] 0 1 1 (1/2) 1 1 [1] 0 [[0]] [-1] 1 1 rfl
    (fun g _ _ _ => List.length_map _ _) (fun _ _ _ _ => rfl)).2

/-- C8: with zero sodium, potassium and leak conductances (all-zero
`params`), zero injected current (`i_amp = 0`) and zero coupling
conductance, every assembled per-branch tridiagonal system is the
identity — unit diagonal, zero off-diagonals, rhs equal to the branch's
voltages — and one `find_root` step leaves every compartment's voltage
unchanged, for any `dt`, assuming the branched solver meets its contract
of exactly solving each branch's tridiagonal system (here specialised to
zero junction coupling) and the gating updates preserve vector length. -/
theorem c8_zero_quantities_identity_step (c : Contracts α) (piv : α) (t : α)
    (u params : List α) (i_delay i_dur dt radius lsc : α) (nn : List α)
    (lev : List (List ℕ)) (par : List ℤ) (nseg nb N : ℕ)
    (hu : u.length = 4 * N) (hp : params.length = 3 * N) (hnn : nn.length = N)
    (hN : N = nb * nseg) (hz : ∀ x ∈ params, x = 0)
    (hg : ∀ (g : List α) (d : α) (a b : List α),
      (c.solve_gate_implicit g d a b).length = g.length)
    (hsolve : ∀ (lev' : List (List ℕ)) (par' : List ℤ) (L D U S : List (List α)),
      (∀ b, b < S.length →
        (∀ x ∈ L.getD b [], x = 0) ∧ (∀ x ∈ U.getD b [], x = 0) ∧
          D.getD b [] = List.replicate (S.getD b []).length 1) →
      (c.solve_branched lev' par' L D U S 0).length = S.length ∧
      ∀ b, b < S.length →
        TridiagSol (L.getD b []) (D.getD b []) (U.getD b []) (S.getD b [])
          ((c.solve_branched lev' par' L D U S 0).getD b [])) :
    (∀ (voltages na kd leak i_ext : List α),
      voltages.length = nb * nseg → na.length = nb * nseg → kd.length = nb * nseg →
      leak.length = nb * nseg → i_ext.length = nb * nseg →
      (∀ x ∈ na, x = 0) → (∀ x ∈ kd, x = 0) → (∀ x ∈ leak, x = 0) →
      (∀ x ∈ i_ext, x = 0) →
      (define_all_tridiags voltages na kd leak i_ext nn nseg nb dt 0).diags =
        List.replicate nb (List.replicate nseg 1) ∧
      (define_all_tridiags voltages na kd leak i_ext nn nseg nb dt 0).lowers =
        List.replicate nb (List.replicate (nseg - 1) 0) ∧
      (define_all_tridiags voltages na kd leak i_ext nn nseg nb dt 0).uppers =
        List.replicate nb (List.replicate (nseg - 1) 0) ∧
      (define_all_tridiags voltages na kd leak i_ext nn nseg nb dt 0).solves =
        (List.range nb).map (fun b => (voltages.drop (b * nseg)).take nseg)) ∧
    strideSlice (find_root c piv t u params i_delay 0 i_dur dt radius lsc nn 0
      lev par nseg nb) 0 4 = strideSlice u 0 4 := by
  have hnnl : nn.length = nb * nseg := by rw [hnn, hN]
  have hIdentity : ∀ (voltages na kd leak i_ext : List α),
      voltages.length = nb * nseg → na.length = nb * nseg → kd.length = nb * nseg →
      leak.length = nb * nseg → i_ext.length = nb * nseg →
      (∀ x ∈ na, x = 0) → (∀ x ∈ kd, x = 0) → (∀ x ∈ leak, x = 0) →
      (∀ x ∈ i_ext, x = 0) →
      (define_all_tridiags voltages na kd leak i_ext nn nseg nb dt 0).diags =
        List.replicate nb (List.replicate nseg 1) ∧
      (define_all_tridiags voltages na kd leak i_ext nn nseg nb dt 0).lowers =
        List.replicate nb (List.replicate (nseg - 1) 0) ∧
      (define_all_tridiags voltages na kd leak i_ext nn nseg nb dt 0).uppers =
        List.replicate nb (List.replicate (nseg - 1) 0) ∧
      (define_all_tridiags voltages na kd leak i_ext nn nseg nb dt 0).solves =
        (List.range nb).map (fun b => (voltages.drop (b * nseg)).take nseg) := by
    intro voltages na kd leak i_ext hvl hnal hkdl hleakl hiel hna0 hkd0 hleak0 hie0
    refine ⟨?_, ?_, ?_, ?_⟩
    · apply list_eq_of_getD ([] : List α)
        (by rw [tridiags_length_diags, List.length_replicate])
      intro b hbx
      rw [tridiags_length_diags] at hbx
      rw [tridiags_row_diags _ _ _ _ _ _ _ _ _ _ hbx, getD_replicate_of_lt _ _ _ hbx]
      apply list_eq_of_getD (0 : α)
      · rw [List.length_zipWith, length_ladd, length_ladd, length_block hnal hbx,
          length_block hkdl hbx, length_block hleakl hbx, length_block hnnl hbx,
          List.length_replicate]
        omega
      intro i hi
      rw [List.length_zipWith, length_ladd, length_ladd, length_block hnal hbx,
        length_block hkdl hbx, length_block hleakl hbx, length_block hnnl hbx] at hi
      have hins : i < nseg := by omega
      rw [getD_zipWith _ _ _ i
          (by rw [length_ladd, length_ladd, length_block hnal hbx,
            length_block hkdl hbx, length_block hleakl hbx]; omega)
          (by rw [length_block hnnl hbx]; exact hins),
        getD_ladd
          (by rw [length_ladd, length_block hnal hbx, length_block hkdl hbx]; omega)
          (by rw [length_block hleakl hbx]; exact hins),
        getD_ladd (by rw [length_block hnal hbx]; exact hins)
          (by rw [length_block hkdl hbx]; exact hins),
        getD_block na _ _ _ hins, getD_block kd _ _ _ hins, getD_block leak _ _ _ hins,
        getD_of_forall_zero hna0, getD_of_forall_zero hkd0, getD_of_forall_zero hleak0,
        getD_replicate_of_lt _ _ _ hins]
      ring
    · apply list_eq_of_getD ([] : List α)
        (by rw [tridiags_length_lowers, List.length_replicate])
      intro b hbx
      rw [tridiags_length_lowers] at hbx
      rw [tridiags_row_lowers _ _ _ _ _ _ _ _ _ _ hbx, getD_replicate_of_lt _ _ _ hbx,
        show (-dt * (0 : α)) = 0 from by ring]
    · apply list_eq_of_getD ([] : List α)
        (by rw [tridiags_length_uppers, List.length_replicate])
      intro b hbx
      rw [tridiags_length_uppers] at hbx
      rw [tridiags_row_uppers _ _ _ _ _ _ _ _ _ _ hbx, getD_replicate_of_lt _ _ _ hbx,
        show (-dt * (0 : α)) = 0 from by ring]
    · apply list_eq_of_getD ([] : List α)
        (by rw [tridiags_length_solves, List.length_map, List.length_range])
      intro b hbx
      rw [tridiags_length_solves] at hbx
      rw [tridiags_row_solves _ _ _ _ _ _ _ _ _ _ hbx, rows_map_getD _ hbx]
      apply list_eq_of_getD (0 : α)
      · rw [List.length_zipWith, length_block hvl hbx, length_ladd, length_ladd,
          length_ladd, length_smul, length_smul, length_smul, length_block hnal hbx,
          length_block hkdl hbx, length_block hleakl hbx, length_block hiel hbx]
        omega
      intro i hi
      rw [List.length_zipWith, length_block hvl hbx, length_ladd, length_ladd,
        length_ladd, length_smul, length_smul, length_smul, length_block hnal hbx,
        length_block hkdl hbx, length_block hleakl hbx, length_block hiel hbx] at hi
      have hins : i < nseg := by omega
      rw [getD_zipWith _ _ _ i (by rw [length_block hvl hbx]; exact hins)
          (by rw [length_ladd, length_ladd, length_ladd, length_smul, length_smul,
            length_smul, length_block hnal hbx, length_block hkdl hbx,
            length_block hleakl hbx, length_block hiel hbx]; omega),
        getD_ladd
          (by
            rw [length_ladd, length_ladd, length_smul, length_smul, length_smul,
              length_block hnal hbx, length_block hkdl hbx, length_block hleakl hbx]
            omega)
          (by rw [length_block hiel hbx]; exact hins),
        getD_ladd
          (by rw [length_ladd, length_smul, length_smul, length_block hnal hbx,
            length_block hkdl hbx]; omega)
          (by rw [length_smul, length_block hleakl hbx]; exact hins),
        getD_ladd (by rw [length_smul, length_block hnal hbx]; exact hins)
          (by rw [length_smul, length_block hkdl hbx]; exact hins),
        getD_smul _ _ (by rw [length_block hnal hbx]; exact hins),
        getD_smul _ _ (by rw [length_block hkdl hbx]; exact hins),
        getD_smul _ _ (by rw [length_block hleakl hbx]; exact hins),
        getD_block na _ _ _ hins, getD_block kd _ _ _ hins, getD_block leak _ _ _ hins,
        getD_block i_ext _ _ _ hins,
        getD_of_forall_zero hna0, getD_of_forall_zero hkd0, getD_of_forall_zero hleak0,
        getD_of_forall_zero hie0]
      ring
  refine ⟨hIdentity, ?_⟩
  have hvl : (strideSlice u 0 4).length = N := by
    rw [length_strideSlice, hu]; omega
  have hml : (strideSlice u 1 4).length = N := by
    rw [length_strideSlice, hu]; omega
  have hhl : (strideSlice u 2 4).length = N := by
    rw [length_strideSlice, hu]; omega
  have hnl : (strideSlice u 3 4).length = N := by
    rw [length_strideSlice, hu]; omega
  have hp0l : (strideSlice params 0 3).length = N := by
    rw [length_strideSlice, hp]; omega
  have hp1l : (strideSlice params 1 3).length = N := by
    rw [length_strideSlice, hp]; omega
  have hp2l : (strideSlice params 2 3).length = N := by
    rw [length_strideSlice, hp]; omega
  have hvbl : (strideSlice u 0 4).length = nb * nseg := by rw [hvl, hN]
  have hna0 : ∀ x ∈ lmul (lmul (strideSlice params 0 3)
      (lpow (strideSlice u 1 4) 3)) (strideSlice u 2 4), x = 0 :=
    forall_zipWith_left (fun y => zero_mul y) _ _
      (forall_zipWith_left (fun y => zero_mul y) _ _ (forall_strideSlice_zero hz 0 3))
  have hkd0 : ∀ x ∈ lmul (strideSlice params 1 3) (lpow (strideSlice u 3 4) 4),
      x = 0 :=
    forall_zipWith_left (fun y => zero_mul y) _ _ (forall_strideSlice_zero hz 1 3)
  have hleak0 : ∀ x ∈ strideSlice params 2 3, x = 0 := forall_strideSlice_zero hz 2 3
  have hnal : (lmul (lmul (strideSlice params 0 3) (lpow (strideSlice u 1 4) 3))
      (strideSlice u 2 4)).length = nb * nseg := by
    rw [length_lmul, length_lmul, length_lpow, hp0l, hml, hhl, ← hN]
    omega
  have hkdl : (lmul (strideSlice params 1 3) (lpow (strideSlice u 3 4) 4)).length =
      nb * nseg := by
    rw [length_lmul, length_lpow, hp1l, hnl, ← hN]
    omega
  have hleakl : (strideSlice params 2 3).length = nb * nseg := by rw [hp2l, hN]
  have hie_eq : get_external_input piv (strideSlice u 0 4) t i_dur 0 radius lsc nseg =
      List.replicate (strideSlice u 0 4).length 0 := by
    simp only [get_external_input]
    have hcur : (0 : α) / 2 / piv / radius / lsc = 0 := by simp
    rw [hcur, set_replicate_zero]
    split <;> rfl
  have hie0 : ∀ x ∈ get_external_input piv (strideSlice u 0 4) t i_dur 0 radius lsc
      nseg, x = 0 := by
    rw [hie_eq]
    intro x hx
    exact List.eq_of_mem_replicate hx
  have hiel : (get_external_input piv (strideSlice u 0 4) t i_dur 0 radius lsc
      nseg).length = nb * nseg := by
    rw [hie_eq, List.length_replicate, hvbl]
  obtain ⟨hdiags, hlowers, huppers, hsolves⟩ := hIdentity (strideSlice u 0 4)
    (lmul (lmul (strideSlice params 0 3) (lpow (strideSlice u 1 4) 3))
      (strideSlice u 2 4))
    (lmul (strideSlice params 1 3) (lpow (strideSlice u 3 4) 4))
    (strideSlice params 2 3)
    (get_external_input piv (strideSlice u 0 4) t i_dur 0 radius lsc nseg)
    hvbl hnal hkdl hleakl hiel hna0 hkd0 hleak0 hie0
  have hpre : ∀ b, b < (define_all_tridiags (strideSlice u 0 4)
      (lmul (lmul (strideSlice params 0 3) (lpow (strideSlice u 1 4) 3))
        (strideSlice u 2 4))
      (lmul (strideSlice params 1 3) (lpow (strideSlice u 3 4) 4))
      (strideSlice params 2 3)
      (get_external_input piv (strideSlice u 0 4) t i_dur 0 radius lsc nseg)
      nn nseg nb dt 0).solves.length →
      (∀ x ∈ (define_all_tridiags (strideSlice u 0 4)
        (lmul (lmul (strideSlice params 0 3) (lpow (strideSlice u 1 4) 3))
          (strideSlice u 2 4))
        (lmul (strideSlice params 1 3) (lpow (strideSlice u 3 4) 4))
        (strideSlice params 2 3)
        (get_external_input piv (strideSlice u 0 4) t i_dur 0 radius lsc nseg)
        nn nseg nb dt 0).lowers.getD b [], x = 0) ∧
      (∀ x ∈ (define_all_tridiags (strideSlice u 0 4)
        (lmul (lmul (strideSlice params 0 3) (lpow (strideSlice u 1 4) 3))
          (strideSlice u 2 4))
        (lmul (strideSlice params 1 3) (lpow (strideSlice u 3 4) 4))
        (strideSlice params 2 3)
        (get_external_input piv (strideSlice u 0 4) t i_dur 0 radius lsc nseg)
        nn nseg nb dt 0).uppers.getD b [], x = 0) ∧
      (define_all_tridiags (strideSlice u 0 4)
        (lmul (lmul (strideSlice params 0 3) (lpow (strideSlice u 1 4) 3))
          (strideSlice u 2 4))
        (lmul (strideSlice params 1 3) (lpow (strideSlice u 3 4) 4))
        (strideSlice params 2 3)
        (get_external_input piv (strideSlice u 0 4) t i_dur 0 radius lsc nseg)
        nn nseg nb dt 0).diags.getD b [] =
        List.replicate (((define_all_tridiags (strideSlice u 0 4)
          (lmul (lmul (strideSlice params 0 3) (lpow (strideSlice u 1 4) 3))
            (strideSlice u 2 4))
          (lmul (strideSlice params 1 3) (lpow (strideSlice u 3 4) 4))
          (strideSlice params 2 3)
          (get_external_input piv (strideSlice u 0 4) t i_dur 0 radius lsc nseg)
          nn nseg nb dt 0).solves.getD b []).length) 1 := by
    intro b hb
    rw [tridiags_length_solves] at hb
    refine ⟨?_, ?_, ?_⟩
    · rw [hlowers, getD_replicate_of_lt _ _ _ hb]
      intro x hx
      exact List.eq_of_mem_replicate hx
    · rw [huppers, getD_replicate_of_lt _ _ _ hb]
      intro x hx
      exact List.eq_of_mem_replicate hx
    · rw [hdiags, getD_replicate_of_lt _ _ _ hb, hsolves, rows_map_getD _ hb,
        length_block hvbl hb]
  obtain ⟨houtlen, hout⟩ := hsolve lev par _ _ _ _ hpre
  have houteq : c.solve_branched lev par
      (define_all_tridiags (strideSlice u 0 4)
        (lmul (lmul (strideSlice params 0 3) (lpow (strideSlice u 1 4) 3))
          (strideSlice u 2 4))
        (lmul (strideSlice params 1 3) (lpow (strideSlice u 3 4) 4))
        (strideSlice params 2 3)
        (get_external_input piv (strideSlice u 0 4) t i_dur 0 radius lsc nseg)
        nn nseg nb dt 0).lowers
      (define_all_tridiags (strideSlice u 0 4)
        (lmul (lmul (strideSlice params 0 3) (lpow (strideSlice u 1 4) 3))
          (strideSlice u 2 4))
        (lmul (strideSlice params 1 3) (lpow (strideSlice u 3 4) 4))
        (strideSlice params 2 3)
        (get_external_input piv (strideSlice u 0 4) t i_dur 0 radius lsc nseg)
        nn nseg nb dt 0).diags
      (define_all_tridiags (strideSlice u 0 4)
        (lmul (lmul (strideSlice params 0 3) (lpow (strideSlice u 1 4) 3))
          (strideSlice u 2 4))
        (lmul (strideSlice params 1 3) (lpow (strideSlice u 3 4) 4))
        (strideSlice params 2 3)
        (get_external_input piv (strideSlice u 0 4) t i_dur 0 radius lsc nseg)
        nn nseg nb dt 0).uppers
      (define_all_tridiags (strideSlice u 0 4)
        (lmul (lmul (strideSlice params 0 3) (lpow (strideSlice u 1 4) 3))
          (strideSlice u 2 4))
        (lmul (strideSlice params 1 3) (lpow (strideSlice u 3 4) 4))
        (strideSlice params 2 3)
        (get_external_input piv (strideSlice u 0 4) t i_dur 0 radius lsc nseg)
        nn nseg nb dt 0).solves 0 =
      (define_all_tridiags (strideSlice u 0 4)
        (lmul (lmul (strideSlice params 0 3) (lpow (strideSlice u 1 4) 3))
          (strideSlice u 2 4))
        (lmul (strideSlice params 1 3) (lpow (strideSlice u 3 4) 4))
        (strideSlice params 2 3)
        (get_external_input piv (strideSlice u 0 4) t i_dur 0 radius lsc nseg)
        nn nseg nb dt 0).solves := by
    apply list_eq_of_getD ([] : List α) houtlen
    intro b hb
    rw [houtlen, tridiags_length_solves] at hb
    obtain ⟨hL, hU, hD⟩ := hpre b (by rw [tridiags_length_solves]; exact hb)
    exact tridiagSol_identity_unique hL hU hD
      (hout b (by rw [tridiags_length_solves]; exact hb))
  show strideSlice
      (interleave4
        ((c.solve_branched lev par
          (define_all_tridiags (strideSlice u 0 4)
            (lmul (lmul (strideSlice params 0 3) (lpow (strideSlice u 1 4) 3))
              (strideSlice u 2 4))
            (lmul (strideSlice params 1 3) (lpow (strideSlice u 3 4) 4))
            (strideSlice params 2 3)
            (get_external_input piv (strideSlice u 0 4) t i_dur 0 radius lsc nseg)
            nn nseg nb dt 0).lowers
          (define_all_tridiags (strideSlice u 0 4)
            (lmul (lmul (strideSlice params 0 3) (lpow (strideSlice u 1 4) 3))
              (strideSlice u 2 4))
            (lmul (strideSlice params 1 3) (lpow (strideSlice u 3 4) 4))
            (strideSlice params 2 3)
            (get_external_input piv (strideSlice u 0 4) t i_dur 0 radius lsc nseg)
            nn nseg nb dt 0).diags
          (define_all_tridiags (strideSlice u 0 4)
            (lmul (lmul (strideSlice params 0 3) (lpow (strideSlice u 1 4) 3))
              (strideSlice u 2 4))
            (lmul (strideSlice params 1 3) (lpow (strideSlice u 3 4) 4))
            (strideSlice params 2 3)
            (get_external_input piv (strideSlice u 0 4) t i_dur 0 radius lsc nseg)
            nn nseg nb dt 0).uppers
          (define_all_tridiags (strideSlice u 0 4)
            (lmul (lmul (strideSlice params 0 3) (lpow (strideSlice u 1 4) 3))
              (strideSlice u 2 4))
            (lmul (strideSlice params 1 3) (lpow (strideSlice u 3 4) 4))
            (strideSlice params 2 3)
            (get_external_input piv (strideSlice u 0 4) t i_dur 0 radius lsc nseg)
            nn nseg nb dt 0).solves (-dt * 0)).flatten)
        (c.solve_gate_implicit (strideSlice u 1 4) dt
          (c.m_gate (strideSlice u 0 4)).1 (c.m_gate (strideSlice u 0 4)).2)
        (c.solve_gate_implicit (strideSlice u 2 4) dt
          (c.h_gate (strideSlice u 0 4)).1 (c.h_gate (strideSlice u 0 4)).2)
        (c.solve_gate_implicit (strideSlice u 3 4) dt
          (c.n_gate (strideSlice u 0 4)).1 (c.n_gate (strideSlice u 0 4)).2)) 0 4 =
      strideSlice u 0 4
  rw [show (-dt * (0 : α)) = 0 from by ring, houteq, hsolves,
    flatten_blocks nseg nb _ (by rw [hvbl])]
  exact strideSlice_interleave4_zero_eq ((hg _ _ _ _).trans (by rw [hml, hvl]))
    ((hg _ _ _ _).trans (by rw [hhl, hvl])) ((hg _ _ _ _).trans (by rw [hnl, hvl]))

/-- The rhs-returning branched solver of `dummyContractsB` exactly solves
every per-branch system whose diagonal is all ones and whose
off-diagonals are all zeros, at zero junction coupling. -/
theorem dummyContractsB_solver_exact (lev' : List (List ℕ)) (par' : List ℤ)
    (L D U S : List (List ℚ))
    (hpre : ∀ b, b < S.length →
      (∀ x ∈ L.getD b [], x = 0) ∧ (∀ x ∈ U.getD b [], x = 0) ∧
        D.getD b [] = List.replicate (S.getD b []).length 1) :
    (dummyContractsB.solve_branched lev' par' L D U S 0).length = S.length ∧
    ∀ b, b < S.length →
      TridiagSol (L.getD b []) (D.getD b []) (U.getD b []) (S.getD b [])
        ((dummyContractsB.solve_branched lev' par' L D U S 0).getD b []) := by
  refine ⟨rfl, ?_⟩
  intro b hb
  obtain ⟨hL, hU, hD⟩ := hpre b hb
  refine ⟨rfl, ?_⟩
  intro i hi
  show (if 1 ≤ i then (L.getD b []).getD (i - 1) 0 * (S.getD b []).getD (i - 1) 0
      else 0) +
    (D.getD b []).getD i 0 * (S.getD b []).getD i 0 +
    (if i + 1 < (S.getD b []).length then
      (U.getD b []).getD i 0 * (S.getD b []).getD (i + 1) 0 else 0) =
    (S.getD b []).getD i 0
  rw [hD, getD_replicate_of_lt _ _ _ hi, getD_of_forall_zero hL,
    getD_of_forall_zero hU]
  split_ifs <;> ring

theorem c8_witness :
    strideSlice (find_root dummyContractsB 3 0 [2, 3, 4, 5] [0, 0, 0] 0 0 1 5 1 1 [7] 0
      [[0]] [-1] 1 1) 0 4 = strideSlice ([2, 3, 4, 5] : List ℚ) 0 4 :=
  (c8_zero_quantities_identity_step dummyContractsB 3 0 [2, 3, 4, 5] [0, 0, 0] 0 1 5 1
    1 [7] [[0]] [-1] 1 1 1 rfl rfl rfl rfl (by decide) (fun _ _ _ _ => rfl)
    dummyContractsB_solver_exact).2

/-- Setting one position of a mapped range list replaces that one mapped
value. -/
theorem set_map_range {β : Type} (f : ℕ → β) (v : β) (m k : ℕ) (hk : k < m) :
    ((List.range m).map f).set k v =
      (List.range m).map (fun i => if i = k then v else f i) := by
  apply List.ext_getElem?
  intro n
  by_cases hn : n < m
  · by_cases hnk : k = n
    · subst hnk
      rw [List.getElem?_set_self
          (by rw [List.length_map, List.length_range]; exact hk),
        List.getElem?_map, List.getElem?_range hn, Option.map_some']
      exact congrArg some (if_pos rfl).symm
    · rw [List.getElem?_set_ne hnk, List.getElem?_map, List.getElem?_map,
        List.getElem?_range hn, Option.map_some', Option.map_some']
      exact congrArg some (if_neg (fun h => hnk h.symm)).symm
  · rw [List.getElem?_eq_none
        (by rw [List.length_set, List.length_map, List.length_range]; omega),
      List.getElem?_eq_none (by rw [List.length_map, List.length_range]; omega)]

/-- The per-step `(t, u)` transformer of the driver loop: `find_root` at
the current time and state, then `t += dt`; every other tuple field of the
loop state is constant across iterations. -/
def step_tu (c : Contracts α) (piv : α) (params : List α)
    (i_delay i_amp i_dur dt radius lsc : α) (nn : List α) (cc : α)
    (lev : List (List ℕ)) (par : List ℤ) (nseg nb : ℕ) :
    α × List α → α × List α :=
  fun p => (p.1 + dt,
    find_root c piv p.1 p.2 params i_delay i_amp i_dur dt radius lsc nn cc lev par
      nseg nb)

/-- Exact characterization of the driver's `fori_loop` state after `n` of
at most `m` iterations: time and state follow the iterated step function,
all other fields are unchanged, and recording slot `i` holds the
compartment-0 voltage of the state after `i + 1` steps once `i < n`. -/
theorem solve_loop_characterization (c : Contracts α) (piv : α) (g : ℤ × ℤ)
    (params : List α) (i_delay i_amp i_dur dt radius lsc : α) (nn : List α) (cc : α)
    (lev : List (List ℕ)) (par : List ℤ) (u0 : List α) (t0 : α) (m : ℕ) :
    ∀ n, n ≤ m →
      (List.range n).foldl (fun s i => body_fun c piv g i s)
        ⟨t0, u0, params, i_delay, i_amp, i_dur, dt, radius, lsc, nn, cc, lev, par,
          List.replicate m 0⟩ =
      ⟨((step_tu c piv params i_delay i_amp i_dur dt radius lsc nn cc lev par
          g.2.toNat g.1.toNat)^[n] (t0, u0)).1,
        ((step_tu c piv params i_delay i_amp i_dur dt radius lsc nn cc lev par
          g.2.toNat g.1.toNat)^[n] (t0, u0)).2,
        params, i_delay, i_amp, i_dur, dt, radius, lsc, nn, cc, lev, par,
        (List.range m).map (fun i => if i < n then
          ((step_tu c piv params i_delay i_amp i_dur dt radius lsc nn cc lev par
            g.2.toNat g.1.toNat)^[i + 1] (t0, u0)).2.getD 0 0 else 0)⟩ := by
  intro n
  induction n with
  | zero =>
    intro _
    simp only [List.range_zero, List.foldl_nil, Function.iterate_zero_apply,
      Nat.not_lt_zero, if_false, List.map_const', List.length_range]
  | succ k ih =>
    intro hk
    rw [List.range_succ, List.foldl_append, List.foldl_cons, List.foldl_nil,
      ih (by omega)]
    simp only [body_fun]
    have hval : find_root c piv
        ((step_tu c piv params i_delay i_amp i_dur dt radius lsc nn cc lev par
          g.2.toNat g.1.toNat)^[k] (t0, u0)).1
        ((step_tu c piv params i_delay i_amp i_dur dt radius lsc nn cc lev par
          g.2.toNat g.1.toNat)^[k] (t0, u0)).2
        params i_delay i_amp i_dur dt radius lsc nn cc lev par g.2.toNat g.1.toNat =
        ((step_tu c piv params i_delay i_amp i_dur dt radius lsc nn cc lev par
          g.2.toNat g.1.toNat)^[k + 1] (t0, u0)).2 := by
      rw [Function.iterate_succ_apply']
      rfl
    simp only [LoopState.mk.injEq]
    refine ⟨?_, ?_, trivial, trivial, trivial, trivial, trivial, trivial, trivial,
      trivial, trivial, trivial, trivial, ?_⟩
    · rw [Function.iterate_succ_apply']
      rfl
    · rw [Function.iterate_succ_apply']
      rfl
    · rw [hval, set_map_range _ _ _ _ (show k < m by omega)]
      apply List.map_congr_left
      intro i hi
      by_cases hik : i = k
      · subst hik
        rw [if_pos rfl, if_pos (by omega)]
      · rw [if_neg hik]
        by_cases hlt : i < k
        · rw [if_pos hlt, if_pos (by omega)]
        · rw [if_neg hlt, if_neg (by omega)]

/-- C4: `solve` returns exactly the 1000-element recorded-trace sequence —
entry `i` is the compartment-0 voltage (`u[0]`) of the state after `i + 1`
steps — and nothing else: the final state vector is computed by the loop
but only the recording buffer is returned, for every morphology, step
size, initial state, parameter vector and stimulus. -/
theorem c4_solve_returns_trace (g : ℤ × ℤ) (c : Contracts α) (piv : α)
    (cell : Cell α) (dt : α) (u params : List α) (st : Stimulus α) :
    (solve g c piv cell dt u params st).length = 1000 ∧
    solve g c piv cell dt u params st = (List.range 1000).map (fun i =>
      ((step_tu c piv params st.i_delay st.i_amp st.i_dur dt cell.radius
        cell.length_single_compartment cell.num_neighbours cell.coupling_conds
        cell.branches_in_each_level cell.parents cell.nseg_per_branch
        cell.num_branches)^[i + 1] (0, u)).2.getD 0 0) := by
  have hsolve_eq : solve g c piv cell dt u params st =
      ((List.range 1000).foldl
        (fun s i => body_fun c piv
          ((cell.num_branches : ℤ), (cell.nseg_per_branch : ℤ)) i s)
        ⟨0, u, params, st.i_delay, st.i_amp, st.i_dur, dt, cell.radius,
          cell.length_single_compartment, cell.num_neighbours, cell.coupling_conds,
          cell.branches_in_each_level, cell.parents,
          List.replicate 1000 0⟩).saveat := rfl
  rw [hsolve_eq,
    solve_loop_characterization c piv
      ((cell.num_branches : ℤ), (cell.nseg_per_branch : ℤ)) params st.i_delay
      st.i_amp st.i_dur dt cell.radius cell.length_single_compartment
      cell.num_neighbours cell.coupling_conds cell.branches_in_each_level
      cell.parents u 0 1000 1000 (le_refl _)]
  simp only [Int.toNat_natCast]
  constructor
  · rw [List.length_map, List.length_range]
  · apply List.map_congr_left
    intro i hi
    rw [List.mem_range] at hi
    rw [if_pos hi]

end Neurax
